import Mathlib

/-!
Verification of the ABI-analysis dataflow core of revng:
the instruction classifier (`include/revng/ABIAnalyses/Common.h`) and the
`UsedArgumentsOfFunction` monotone-framework instance (generated lattice file).

The shallow embedding below mirrors the C++ sources:
  * `CoreLattice`: the three-valued per-register lattice with
    `isLessOrEqual`, `combineValues` and `transfer`.
  * `RegMap`: the register-state map. `llvm::DenseMap` is modelled as an
    association list; `mapInsert` models `Map[Reg] = v` (insert-or-update),
    `getOrDefault` models the `getOrDefault` helper (`find` + `lookup`,
    defaulting to `DefaultLatticeElement`).
  * `ABIAnalysis`: the register catalog (`RegisterList`, a list of opaque
    register identities, modelled as `Nat`, standing for the
    `GlobalVariable *` pointers) plus the optional distinguished call site
    (`CallSite`, a pointer modelled as an optional call-instruction id).
  * `Instr` / `BasicBlock`: the instruction shapes the classifier inspects.
    A store/load carries its pointer operand (`Value`: a global variable or
    anything else); a call carries an identity (its pointer) and an optional
    callee name — `none` models an indirect call, i.e. a null
    `getCalledFunction()`.  Lifted LLVM blocks contain no PHI nodes, so
    `getFirstInsertionPt` is the first instruction of the list.
  * Partiality from undefined behaviour is made explicit with `Option`:
    `isCallSiteBlock` returns `none` exactly when the C++ code dereferences
    the null result of `getCalledFunction()`, and this propagates to
    `classifyInstruction` and `applyTransferFunction`.
-/

namespace ABIAnalyses

/-- Transfer events, `enum TransferKind` in `Common.h`. -/
inductive TransferKind where
  | Read
  | Write
  | WeakWrite
  | TheCall
  | None
  | ReturnFromYes
  | ReturnFromMaybe
  | ReturnFromNoOrDead
  | ReturnFromUnknown
  | UnknownFunctionCall
deriving DecidableEq, Repr, Fintype

namespace CoreLattice

/-- The three-valued per-register domain, `enum LatticeElement`. -/
inductive LatticeElement where
  | Maybe
  | Unknown
  | Yes
deriving DecidableEq, Repr, Fintype

/-- `static const LatticeElement DefaultLatticeElement = Maybe`. -/
def DefaultLatticeElement : LatticeElement := LatticeElement.Maybe

/-- `CoreLattice::isLessOrEqual`. -/
def isLessOrEqual (Lh Rh : LatticeElement) : Bool :=
  Lh == Rh
  || (Lh == LatticeElement.Maybe && Rh == LatticeElement.Yes)
  || (Lh == LatticeElement.Unknown && Rh == LatticeElement.Maybe)
  || (Lh == LatticeElement.Unknown && Rh == LatticeElement.Yes)

/-- `CoreLattice::combineValues`. -/
def combineValues (Lh Rh : LatticeElement) : LatticeElement :=
  if (Lh == LatticeElement.Maybe && Rh == LatticeElement.Unknown)
      || (Lh == LatticeElement.Unknown && Rh == LatticeElement.Maybe) then
    LatticeElement.Maybe
  else if (Lh == LatticeElement.Maybe && Rh == LatticeElement.Yes)
      || (Lh == LatticeElement.Unknown && Rh == LatticeElement.Yes)
      || (Lh == LatticeElement.Yes && Rh == LatticeElement.Maybe)
      || (Lh == LatticeElement.Yes && Rh == LatticeElement.Unknown) then
    LatticeElement.Yes
  else
    Lh

/-- `CoreLattice::transfer`. -/
def transfer (T : TransferKind) (E : LatticeElement) : LatticeElement :=
  match T with
  | TransferKind.Read =>
    match E with
    | LatticeElement.Maybe => LatticeElement.Yes
    | LatticeElement.Yes => LatticeElement.Yes
    | LatticeElement.Unknown => LatticeElement.Unknown
  | TransferKind.WeakWrite =>
    match E with
    | LatticeElement.Maybe => LatticeElement.Unknown
    | LatticeElement.Yes => LatticeElement.Yes
    | LatticeElement.Unknown => LatticeElement.Unknown
  | TransferKind.Write =>
    match E with
    | LatticeElement.Maybe => LatticeElement.Unknown
    | LatticeElement.Yes => LatticeElement.Yes
    | LatticeElement.Unknown => LatticeElement.Unknown
  | _ => E

end CoreLattice

/-- An opaque register identity (a `GlobalVariable *` in the source). -/
abbrev Reg := Nat

/-- The register-state map, `llvm::DenseMap<const GlobalVariable *, LatticeElement>`. -/
abbrev RegMap := List (Reg × CoreLattice.LatticeElement)

/-- `getOrDefault`: the stored value when the key is present, `Maybe` otherwise. -/
def getOrDefault : RegMap → Reg → CoreLattice.LatticeElement
  | [], _ => CoreLattice.DefaultLatticeElement
  | (k, v) :: rest, K => if k = K then v else getOrDefault rest K

/-- `Map[K] = V` on a `DenseMap`: update the entry if present, append otherwise. -/
def mapInsert : RegMap → Reg → CoreLattice.LatticeElement → RegMap
  | [], K, V => [(K, V)]
  | (k, v) :: rest, K, V =>
    if k = K then (K, V) :: rest else (k, v) :: mapInsert rest K V

/-- Map-level `ABIAnalyses::combineValues`: copy of `Lh`, then for every entry
of `Rh` set the key to the core combine of the current and the `Rh` value. -/
def combineValues (Lh Rh : RegMap) : RegMap :=
  Rh.foldl
    (fun New p =>
      mapInsert New p.1
        (CoreLattice.combineValues (getOrDefault New p.1) (getOrDefault Rh p.1)))
    Lh

/-- Map-level `ABIAnalyses::isLessOrEqual`: the core order must hold at every
key of `Lh` and at every key of `Rh` (reading absent keys as `Maybe`). -/
def isLessOrEqual (Lh Rh : RegMap) : Bool :=
  (Lh.all fun p =>
    CoreLattice.isLessOrEqual (getOrDefault Lh p.1) (getOrDefault Rh p.1))
  && (Rh.all fun p =>
    CoreLattice.isLessOrEqual (getOrDefault Lh p.1) (getOrDefault Rh p.1))

/-- An operand value: a global variable (register location) or anything else. -/
inductive Value where
  | global (g : Reg)
  | nonGlobal
deriving DecidableEq, Repr

/-- The instruction shapes `classifyInstruction` discriminates on.  A call
carries its identity (pointer) and `getCalledFunction()` as an `Option`
(`none` for an indirect call). -/
inductive Instr where
  | store (ptrOperand : Value)
  | load (ptrOperand : Value)
  | call (id : Nat) (callee : Option String)
  | other
deriving DecidableEq, Repr

/-- A basic block: its ordered instruction list (no PHI nodes in lifted code,
so the first element is `getFirstInsertionPt`). -/
structure BasicBlock where
  insts : List Instr
deriving DecidableEq, Repr

/-- `struct ABIAnalysis`: the tracked-register catalog and the optional
distinguished call site. -/
structure ABIAnalysis where
  registerList : List Reg
  callSite : Option Nat
deriving DecidableEq, Repr

/-- `getRegisters()`. -/
def ABIAnalysis.getRegisters (A : ABIAnalysis) : List Reg :=
  A.registerList

/-- `ABIAnalysis::isABIRegister`: a global variable contained in the catalog. -/
def ABIAnalysis.isABIRegister (A : ABIAnalysis) (V : Value) : Bool :=
  match V with
  | Value.global g => A.registerList.contains g
  | Value.nonGlobal => false

/-- `isCallSiteBlock`: the first instruction is a call whose callee is named
`precall_hook`.  `none` models the undefined behaviour of dereferencing the
null `getCalledFunction()` of an indirect call. -/
def isCallSiteBlock (B : BasicBlock) : Option Bool :=
  match B.insts.head? with
  | some (Instr.call _ (some name)) => some (name == "precall_hook")
  | some (Instr.call _ none) => none
  | _ => some false

/-- `ABIAnalysis::classifyInstruction`.  The parent block is passed
explicitly (the C++ reads it from `I->getParent()`).  `none` models the
crash inherited from `isCallSiteBlock`. -/
def ABIAnalysis.classifyInstruction (A : ABIAnalysis) (B : BasicBlock)
    (I : Instr) : Option TransferKind :=
  match I with
  | Instr.store p =>
    if A.isABIRegister p then
      match isCallSiteBlock B with
      | some true => some TransferKind.WeakWrite
      | some false => some TransferKind.Write
      | none => none
    else
      some TransferKind.None
  | Instr.load p =>
    if A.isABIRegister p then some TransferKind.Read else some TransferKind.None
  | Instr.call i _ =>
    if A.callSite = some i then some TransferKind.TheCall
    else some TransferKind.None
  | Instr.other => some TransferKind.None

/-- `ABIAnalysis::getRegistersWritten`. -/
def ABIAnalysis.getRegistersWritten (A : ABIAnalysis) (I : Instr) : List Reg :=
  match I with
  | Instr.store (Value.global g) =>
    if A.registerList.contains g then [g] else []
  | _ => []

/-- `ABIAnalysis::getRegistersRead`. -/
def ABIAnalysis.getRegistersRead (A : ABIAnalysis) (I : Instr) : List Reg :=
  match I with
  | Instr.load (Value.global g) =>
    if A.registerList.contains g then [g] else []
  | _ => []

/-- One iteration of the `applyTransferFunction` loop body. -/
def applyStep (A : ABIAnalysis) (B : BasicBlock) (New : RegMap)
    (I : Instr) : Option RegMap :=
  match A.classifyInstruction B I with
  | none => none
  | some T =>
    match T with
    | TransferKind.TheCall =>
      some (A.getRegisters.foldl
        (fun m r =>
          mapInsert m r (CoreLattice.transfer TransferKind.TheCall (getOrDefault m r)))
        New)
    | TransferKind.Read =>
      some ((A.getRegistersRead I).foldl
        (fun m r =>
          mapInsert m r (CoreLattice.transfer TransferKind.Read (getOrDefault m r)))
        New)
    | TransferKind.WeakWrite =>
      some ((A.getRegistersWritten I).foldl
        (fun m r =>
          mapInsert m r (CoreLattice.transfer TransferKind.WeakWrite (getOrDefault m r)))
        New)
    | TransferKind.Write =>
      some ((A.getRegistersWritten I).foldl
        (fun m r =>
          mapInsert m r (CoreLattice.transfer TransferKind.Write (getOrDefault m r)))
        New)
    | _ => some New

/-- The `for (i = 0; i < InsList.size(); i++)` loop of `applyTransferFunction`. -/
def applyLoop (A : ABIAnalysis) (B : BasicBlock) : List Instr → RegMap → Option RegMap
  | [], New => some New
  | I :: rest, New =>
    match applyStep A B New I with
    | none => none
    | some New2 => applyLoop A B rest New2

/-- `MFI<isForward>::applyTransferFunction`: run the loop over the block's
instructions in execution order (forward) or reversed (backward). -/
def applyTransferFunction (A : ABIAnalysis) (isForward : Bool)
    (B : BasicBlock) (E : RegMap) : Option RegMap :=
  applyLoop A B (if isForward then B.insts else B.insts.reverse) E

end ABIAnalyses

namespace ABIAnalyses

/-! ### Helper lemmas about the map model -/

/-- Reading a map after `Map[K] = V`: the inserted value at `K`, the old
value elsewhere. -/
theorem getOrDefault_mapInsert (S : RegMap) (K : Reg)
    (V : CoreLattice.LatticeElement) (k : Reg) :
    getOrDefault (mapInsert S K V) k = if K = k then V else getOrDefault S k := by
  induction S with
  | nil => rfl
  | cons p rest ih =>
    obtain ⟨a, b⟩ := p
    simp only [mapInsert]
    by_cases ha : a = K
    · subst ha
      simp only [if_pos rfl, getOrDefault]
      by_cases h : a = k <;> simp [h]
    · rw [if_neg ha]
      simp only [getOrDefault, ih]
      by_cases h1 : a = k <;> by_cases h2 : K = k <;> simp [h1, h2]
      exact absurd (h1.trans h2.symm) ha

/-- A key not stored in the map reads as the default element. -/
theorem getOrDefault_eq_default (S : RegMap) (k : Reg)
    (h : k ∉ S.map Prod.fst) :
    getOrDefault S k = CoreLattice.DefaultLatticeElement := by
  induction S with
  | nil => rfl
  | cons p rest ih =>
    obtain ⟨a, b⟩ := p
    simp only [List.map_cons, List.mem_cons] at h
    push_neg at h
    simp only [getOrDefault, if_neg (fun h2 : a = k => h.1 h2.symm)]
    exact ih h.2

/-- The core combine absorbs a repeated right argument. -/
theorem combineValues_absorb (a b : CoreLattice.LatticeElement) :
    CoreLattice.combineValues (CoreLattice.combineValues a b) b
      = CoreLattice.combineValues a b := by
  revert a b; decide

/-- `transfer TheCall` is the identity rule. -/
theorem transfer_theCall_id (E : CoreLattice.LatticeElement) :
    CoreLattice.transfer TransferKind.TheCall E = E := by
  cases E <;> rfl

/-- Pointwise reading of the `combineValues` fold: keys visited by the fold
hold the core combine of the accumulator's and `Rh`'s values, other keys are
untouched. -/
theorem combineValues_foldl_getOrDefault (Rh : RegMap)
    (L : List (Reg × CoreLattice.LatticeElement)) :
    ∀ (New : RegMap) (k : Reg),
    getOrDefault
      (L.foldl
        (fun m p =>
          mapInsert m p.1
            (CoreLattice.combineValues (getOrDefault m p.1) (getOrDefault Rh p.1)))
        New) k
      = if k ∈ L.map Prod.fst
        then CoreLattice.combineValues (getOrDefault New k) (getOrDefault Rh k)
        else getOrDefault New k := by
  induction L with
  | nil => intro New k; simp
  | cons p rest ih =>
    obtain ⟨a, v⟩ := p
    intro New k
    simp only [List.foldl_cons, List.map_cons, List.mem_cons]
    rw [ih]
    by_cases hk : a = k
    · subst hk
      rw [getOrDefault_mapInsert, if_pos rfl]
      by_cases hmem : a ∈ rest.map Prod.fst
      · simp [hmem, combineValues_absorb]
      · simp [hmem]
    · rw [getOrDefault_mapInsert, if_neg hk]
      by_cases hmem : k ∈ rest.map Prod.fst <;> simp [hmem, Ne.symm hk]

/-- The `TheCall` loop writes each register's current value back, so reads
are unchanged. -/
theorem theCallFold_getOrDefault (rs : List Reg) :
    ∀ (m : RegMap) (k : Reg),
    getOrDefault
      (rs.foldl
        (fun m2 r =>
          mapInsert m2 r (CoreLattice.transfer TransferKind.TheCall (getOrDefault m2 r)))
        m) k
      = getOrDefault m k := by
  induction rs with
  | nil => intro m k; rfl
  | cons r rest ih =>
    intro m k
    simp only [List.foldl_cons]
    rw [ih, getOrDefault_mapInsert, transfer_theCall_id]
    by_cases hk : r = k
    · subst hk; simp
    · simp [hk]

/-! ### The claims -/

/-- C3: for all per-register lattice values `a` and `b`, `combineValues a b`
is an upper bound of both `a` and `b` in the `isLessOrEqual` order. -/
theorem combineValues_upper_bound :
    ∀ a b : CoreLattice.LatticeElement,
      CoreLattice.isLessOrEqual a (CoreLattice.combineValues a b) = true
      ∧ CoreLattice.isLessOrEqual b (CoreLattice.combineValues a b) = true := by
  decide

/-- C9: the per-register combine is commutative: the left-bias fallback is
only reached on equal arguments, so the operation is symmetric. -/
theorem combineValues_comm :
    ∀ a b : CoreLattice.LatticeElement,
      CoreLattice.combineValues a b = CoreLattice.combineValues b a := by
  decide

/-- C10: the per-register transfer function is monotone in its lattice
argument for every transfer event. -/
theorem transfer_monotone :
    ∀ (T : TransferKind) (a b : CoreLattice.LatticeElement),
      CoreLattice.isLessOrEqual a b = true →
      CoreLattice.isLessOrEqual (CoreLattice.transfer T a)
        (CoreLattice.transfer T b) = true := by
  decide

/-- Witness for `transfer_monotone` at `T = Write`, `a = Unknown`, `b = Maybe`. -/
theorem transfer_monotone_witness :
    CoreLattice.isLessOrEqual CoreLattice.LatticeElement.Unknown
      CoreLattice.LatticeElement.Maybe = true
    ∧ CoreLattice.isLessOrEqual
        (CoreLattice.transfer TransferKind.Write CoreLattice.LatticeElement.Unknown)
        (CoreLattice.transfer TransferKind.Write CoreLattice.LatticeElement.Maybe) = true :=
  ⟨by decide,
   transfer_monotone TransferKind.Write CoreLattice.LatticeElement.Unknown
     CoreLattice.LatticeElement.Maybe (by decide)⟩

/-- C4: the `Write` and `WeakWrite` transfer rules are extensionally equal;
the block `[precall_hook, Store R1, postcall_hook]` classifies the store as
`WeakWrite` and takes `{R1: Maybe}` to `{R1: Unknown}`, the same result an
ordinary `Write` (the store alone, in a non-call-site block) produces from
the same start. -/
theorem write_weakWrite_transfer_eq :
    (∀ v : CoreLattice.LatticeElement,
      CoreLattice.transfer TransferKind.Write v
        = CoreLattice.transfer TransferKind.WeakWrite v)
    ∧ ABIAnalysis.classifyInstruction ⟨[1], none⟩
        ⟨[Instr.call 20 (some "precall_hook"), Instr.store (Value.global 1),
          Instr.call 21 (some "postcall_hook")]⟩
        (Instr.store (Value.global 1)) = some TransferKind.WeakWrite
    ∧ applyTransferFunction ⟨[1], none⟩ true
        ⟨[Instr.call 20 (some "precall_hook"), Instr.store (Value.global 1),
          Instr.call 21 (some "postcall_hook")]⟩
        [(1, CoreLattice.LatticeElement.Maybe)]
        = some [(1, CoreLattice.LatticeElement.Unknown)]
    ∧ ABIAnalysis.classifyInstruction ⟨[1], none⟩
        ⟨[Instr.store (Value.global 1)]⟩
        (Instr.store (Value.global 1)) = some TransferKind.Write
    ∧ applyTransferFunction ⟨[1], none⟩ true
        ⟨[Instr.store (Value.global 1)]⟩
        [(1, CoreLattice.LatticeElement.Maybe)]
        = some [(1, CoreLattice.LatticeElement.Unknown)] := by
  decide

/-- C5: forward transfer of the block `[Load R1, Store R1]` from the empty
map yields `{R1: Yes}`: the `Read` promotes `Maybe` to `Yes` and the
subsequent `Write` leaves `Yes` unchanged. -/
theorem read_then_write_yes :
    CoreLattice.transfer TransferKind.Read CoreLattice.LatticeElement.Maybe
      = CoreLattice.LatticeElement.Yes
    ∧ CoreLattice.transfer TransferKind.Write CoreLattice.LatticeElement.Yes
      = CoreLattice.LatticeElement.Yes
    ∧ applyTransferFunction ⟨[1], none⟩ true
        ⟨[Instr.load (Value.global 1), Instr.store (Value.global 1)]⟩ []
        = some [(1, CoreLattice.LatticeElement.Yes)] := by
  decide

/-- C1 (refuted at a key present only in M1): map-level combine of
`{r1: Unknown}` with `{}` keeps `Unknown` at `r1`, whereas the claim demands
`CoreLattice.combine(Unknown, Maybe) = Maybe` there. -/
theorem combineValues_left_unknown_cex :
    combineValues [(1, CoreLattice.LatticeElement.Unknown)] []
      = [(1, CoreLattice.LatticeElement.Unknown)]
    ∧ CoreLattice.combineValues
        (getOrDefault [(1, CoreLattice.LatticeElement.Unknown)] 1)
        (getOrDefault ([] : RegMap) 1) = CoreLattice.LatticeElement.Maybe
    ∧ getOrDefault (combineValues [(1, CoreLattice.LatticeElement.Unknown)] []) 1
        ≠ CoreLattice.combineValues
            (getOrDefault [(1, CoreLattice.LatticeElement.Unknown)] 1)
            (getOrDefault ([] : RegMap) 1) := by
  decide

/-- C1 (amended): the map-level combine returns `M1` updated, at every key
of `M2`, with `CoreLattice.combine(M1.get(k,Maybe), M2.get(k,Maybe))`; a key
present only in `M1` keeps `M1`'s value unchanged — in particular `Unknown`
there stays `Unknown` instead of becoming `combine(Unknown, Maybe) = Maybe`. -/
theorem combineValues_pointwise (M1 M2 : RegMap) (k : Reg) :
    getOrDefault (combineValues M1 M2) k
      = if k ∈ M2.map Prod.fst
        then CoreLattice.combineValues (getOrDefault M1 k) (getOrDefault M2 k)
        else getOrDefault M1 k := by
  unfold combineValues
  exact combineValues_foldl_getOrDefault M2 M2 M1 k

/-- C8: map-level `isLessOrEqual M1 M2` is true iff the per-register order
holds at every key of `M1 ∪ M2` (reading absent keys as `Maybe`); a key
absent from both operands behaves as two `Maybe`s and never causes a
failure, so the test is also equivalent to the pointwise order at all keys. -/
theorem isLessOrEqual_pointwise (M1 M2 : RegMap) :
    (isLessOrEqual M1 M2 = true ↔
      ∀ k : Reg, k ∈ M1.map Prod.fst ∨ k ∈ M2.map Prod.fst →
        CoreLattice.isLessOrEqual (getOrDefault M1 k) (getOrDefault M2 k) = true)
    ∧ (isLessOrEqual M1 M2 = true ↔
      ∀ k : Reg,
        CoreLattice.isLessOrEqual (getOrDefault M1 k) (getOrDefault M2 k) = true) := by
  have hiff : isLessOrEqual M1 M2 = true ↔
      (∀ p ∈ M1,
        CoreLattice.isLessOrEqual (getOrDefault M1 p.1) (getOrDefault M2 p.1) = true)
      ∧ (∀ p ∈ M2,
        CoreLattice.isLessOrEqual (getOrDefault M1 p.1) (getOrDefault M2 p.1) = true) := by
    simp [isLessOrEqual, List.all_eq_true, Bool.and_eq_true]
  have main : isLessOrEqual M1 M2 = true ↔
      ∀ k : Reg, k ∈ M1.map Prod.fst ∨ k ∈ M2.map Prod.fst →
        CoreLattice.isLessOrEqual (getOrDefault M1 k) (getOrDefault M2 k) = true := by
    rw [hiff]
    constructor
    · rintro ⟨h1, h2⟩ k (hk | hk)
      · rcases List.mem_map.mp hk with ⟨p, hp, rfl⟩
        exact h1 p hp
      · rcases List.mem_map.mp hk with ⟨p, hp, rfl⟩
        exact h2 p hp
    · intro h
      exact ⟨fun p hp => h p.1 (Or.inl (List.mem_map.mpr ⟨p, hp, rfl⟩)),
             fun p hp => h p.1 (Or.inr (List.mem_map.mpr ⟨p, hp, rfl⟩))⟩
  refine ⟨main, main.trans ?_⟩
  constructor
  · intro h k
    by_cases hk : k ∈ M1.map Prod.fst ∨ k ∈ M2.map Prod.fst
    · exact h k hk
    · push_neg at hk
      rw [getOrDefault_eq_default M1 k hk.1, getOrDefault_eq_default M2 k hk.2]
      decide
  · intro h k _
    exact h k

/-- C7: wherever the call-site check of the parent block returns (no crash),
`classifyInstruction` yields `WeakWrite` for a store to a tracked register
in a call-site block, `Write` for such a store elsewhere, `Read` for a load
of a tracked register, `TheCall` for the distinguished call, and `None` in
every other case — including loads and stores of locations outside the
catalog. -/
theorem classifyInstruction_cases (A : ABIAnalysis) (B : BasicBlock)
    (I : Instr) (cs : Bool) (h : isCallSiteBlock B = some cs) :
    A.classifyInstruction B I
      = some (match I with
        | Instr.store p =>
          if A.isABIRegister p then
            (if cs then TransferKind.WeakWrite else TransferKind.Write)
          else TransferKind.None
        | Instr.load p =>
          if A.isABIRegister p then TransferKind.Read else TransferKind.None
        | Instr.call i _ =>
          if A.callSite = some i then TransferKind.TheCall else TransferKind.None
        | Instr.other => TransferKind.None) := by
  cases I with
  | store p =>
    simp only [ABIAnalysis.classifyInstruction, h]
    by_cases hr : A.isABIRegister p
    · cases cs <;> simp [hr, h]
    · simp [hr]
  | load p =>
    by_cases hr : A.isABIRegister p <;>
      simp [ABIAnalysis.classifyInstruction, hr]
  | call i c =>
    by_cases hc : A.callSite = some i <;>
      simp [ABIAnalysis.classifyInstruction, hc]
  | other => rfl

/-- Witness for `classifyInstruction_cases`: a store to the tracked register
inside a `precall_hook` block classifies `WeakWrite`. -/
theorem classifyInstruction_cases_witness :
    isCallSiteBlock
        ⟨[Instr.call 9 (some "precall_hook"), Instr.store (Value.global 2)]⟩
      = some true
    ∧ ABIAnalysis.classifyInstruction ⟨[2], none⟩
        ⟨[Instr.call 9 (some "precall_hook"), Instr.store (Value.global 2)]⟩
        (Instr.store (Value.global 2)) = some TransferKind.WeakWrite :=
  ⟨by decide,
   (classifyInstruction_cases ⟨[2], none⟩
      ⟨[Instr.call 9 (some "precall_hook"), Instr.store (Value.global 2)]⟩
      (Instr.store (Value.global 2)) true (by decide)).trans (by decide)⟩

/-- The transfer loop leaves the map unchanged up to reading when every
instruction classifies `None` or `TheCall`, and literally unchanged when
every instruction classifies `None`. -/
theorem applyLoop_frame (A : ABIAnalysis) (B : BasicBlock) (L : List Instr) :
    ∀ New : RegMap,
    (∀ I ∈ L, A.classifyInstruction B I = some TransferKind.None
      ∨ A.classifyInstruction B I = some TransferKind.TheCall) →
    ∃ Mo, applyLoop A B L New = some Mo
      ∧ (∀ k, getOrDefault Mo k = getOrDefault New k)
      ∧ ((∀ I ∈ L, A.classifyInstruction B I = some TransferKind.None) → Mo = New) := by
  induction L with
  | nil =>
    intro New _
    exact ⟨New, rfl, fun _ => rfl, fun _ => rfl⟩
  | cons I rest ih =>
    intro New h
    rcases h I (List.mem_cons_self I rest) with hc | hc
    · have hstep : applyStep A B New I = some New := by
        simp [applyStep, hc]
      rcases ih New (fun J hJ => h J (List.mem_cons_of_mem I hJ)) with ⟨Mo, h1, h2, h3⟩
      refine ⟨Mo, ?_, h2, fun hall => h3 (fun J hJ => hall J (List.mem_cons_of_mem I hJ))⟩
      simp [applyLoop, hstep, h1]
    · have hstep : applyStep A B New I
          = some (A.getRegisters.foldl
              (fun m r => mapInsert m r
                (CoreLattice.transfer TransferKind.TheCall (getOrDefault m r))) New) := by
        simp [applyStep, hc]
      rcases ih
          (A.getRegisters.foldl
            (fun m r => mapInsert m r
              (CoreLattice.transfer TransferKind.TheCall (getOrDefault m r))) New)
          (fun J hJ => h J (List.mem_cons_of_mem I hJ)) with ⟨Mo, h1, h2, h3⟩
      refine ⟨Mo, ?_, ?_, ?_⟩
      · simp [applyLoop, hstep, h1]
      · intro k
        rw [h2 k, theCallFold_getOrDefault]
      · intro hall
        have hNone := hall I (List.mem_cons_self I rest)
        rw [hc] at hNone
        exact absurd hNone (by decide)

/-- C6 (refuted on a TheCall block): a block whose only instruction is the
distinguished call contains no loads or stores of tracked registers, yet the
transfer writes an explicit `Maybe` entry for the tracked register, so the
outgoing map is not literally the incoming `{}`. -/
theorem applyTransferFunction_theCall_inserts_cex :
    applyTransferFunction ⟨[1], some 7⟩ true ⟨[Instr.call 7 (some "helper")]⟩ []
      = some [(1, CoreLattice.LatticeElement.Maybe)]
    ∧ applyTransferFunction ⟨[1], some 7⟩ true ⟨[Instr.call 7 (some "helper")]⟩ []
      ≠ some ([] : RegMap) := by
  decide

/-- C6 (amended): if every instruction of the block classifies `None` or
`TheCall` (no loads or stores of tracked registers), the outgoing map reads
identically to the incoming one at every key, and it is literally equal to
the incoming map when no instruction classifies `TheCall`; the `TheCall`
case applies the identity rule to every tracked register but inserts an
explicit default entry for each, which can enlarge the stored key set. -/
theorem applyTransferFunction_frame (A : ABIAnalysis) (fwd : Bool)
    (B : BasicBlock) (M : RegMap)
    (h : ∀ I ∈ B.insts, A.classifyInstruction B I = some TransferKind.None
      ∨ A.classifyInstruction B I = some TransferKind.TheCall) :
    ∃ Mo, applyTransferFunction A fwd B M = some Mo
      ∧ (∀ k, getOrDefault Mo k = getOrDefault M k)
      ∧ ((∀ I ∈ B.insts, A.classifyInstruction B I = some TransferKind.None) → Mo = M) := by
  cases fwd with
  | true =>
    simpa [applyTransferFunction] using applyLoop_frame A B B.insts M h
  | false =>
    have h2 : ∀ I ∈ B.insts.reverse,
        A.classifyInstruction B I = some TransferKind.None
        ∨ A.classifyInstruction B I = some TransferKind.TheCall :=
      fun I hI => h I (List.mem_reverse.mp hI)
    rcases applyLoop_frame A B B.insts.reverse M h2 with ⟨Mo, h1, hp, hq⟩
    exact ⟨Mo, by simpa [applyTransferFunction] using h1, hp,
      fun hall => hq (fun I hI => hall I (List.mem_reverse.mp hI))⟩

/-- Witness for `applyTransferFunction_frame` on a block holding only the
distinguished call, with one tracked register and the empty incoming map. -/
theorem applyTransferFunction_frame_witness :
    (∀ I ∈ (⟨[Instr.call 3 (some "helper")]⟩ : BasicBlock).insts,
      ABIAnalysis.classifyInstruction ⟨[1], some 3⟩ ⟨[Instr.call 3 (some "helper")]⟩ I
          = some TransferKind.None
        ∨ ABIAnalysis.classifyInstruction ⟨[1], some 3⟩ ⟨[Instr.call 3 (some "helper")]⟩ I
          = some TransferKind.TheCall)
    ∧ ∃ Mo, applyTransferFunction ⟨[1], some 3⟩ true ⟨[Instr.call 3 (some "helper")]⟩ []
          = some Mo
        ∧ (∀ k, getOrDefault Mo k = getOrDefault [] k)
        ∧ ((∀ I ∈ (⟨[Instr.call 3 (some "helper")]⟩ : BasicBlock).insts,
              ABIAnalysis.classifyInstruction ⟨[1], some 3⟩
                ⟨[Instr.call 3 (some "helper")]⟩ I = some TransferKind.None) → Mo = []) :=
  ⟨by decide,
   applyTransferFunction_frame ⟨[1], some 3⟩ true ⟨[Instr.call 3 (some "helper")]⟩ []
     (by decide)⟩

/-- C2 (refuted by the code): classifying a store to a tracked register in a
block whose first instruction is an indirect call — hence not a call-site
block, so the claim's precondition is met — reaches the null dereference of
`getCalledFunction()` in `isCallSiteBlock` (modelled as `none`), so the
classifier is not total there. -/
theorem classifyInstruction_crash_on_indirect_call_head :
    isCallSiteBlock ⟨[Instr.call 5 none, Instr.store (Value.global 1)]⟩ = none
    ∧ ABIAnalysis.classifyInstruction ⟨[1], none⟩
        ⟨[Instr.call 5 none, Instr.store (Value.global 1)]⟩
        (Instr.store (Value.global 1)) = none := by
  decide

end ABIAnalyses
